import Mathlib

/- Shallow embedding of src/monthly_summarizer.py.

Text is modeled as a list of characters (Python strings are sequences of
code points).  Timestamps are modeled as integers counting seconds since
the epoch: the store keeps ISO-8601 strings whose lexicographic order
agrees with chronological order, so the Mongo range query over
`scraped_date` strings is modeled as an integer range query on the parsed
timestamp; a document whose `scraped_date` string cannot be parsed
(`pd.to_datetime(..., errors="coerce")` yields NaT) carries `none` and
falls outside every range query.  Calendar rendering (datetime.isoformat,
strftime) is abstracted to the decimal rendering of the timestamp. -/

abbrev Text := List Char

/-- Decimal digit rendering of a natural number (Python `str`), with an
explicit fuel argument so that the definition is structural. -/
def natStrAux : Nat → Nat → Text
  | 0, _ => []
  | fuel + 1, n =>
    if n < 10 then [Nat.digitChar n]
    else natStrAux fuel (n / 10) ++ [Nat.digitChar (n % 10)]

def natStr (n : Nat) : Text := natStrAux (n + 1) n

def intStr (i : Int) : Text := if i < 0 then '-' :: natStr i.natAbs else natStr i.toNat

/-- The polymorphic `sentiment_analysis` column: the newest format is a list
of records each optionally carrying a `label`; the legacy format is a record
optionally carrying an `aggregate` record optionally carrying a `label`; any
other shape matches neither `isinstance` test of lines 76-81. -/
inductive SentField : Type
  | arr : List (Option Text) → SentField
  | dict : Option (Option Text) → SentField
  | other : SentField
deriving DecidableEq

/-- One processed document row.  Fields that pandas may hold as NaN are
options. -/
structure Article where
  scraped_date : Option Int
  content : Option Text
  title : Text
  upvotes : Option Int
  comments : Option Int
  tags : Option (List Text)
  sentiment_analysis : Option SentField
deriving DecidableEq

/-- `datetime.utcnow().replace(hour=0, minute=0, second=0, microsecond=0)`:
truncation to the containing UTC day. -/
def midnightUTC (now : Int) : Int := 86400 * Int.ediv now 86400

/-- The Mongo range query of lines 48-53 over `scraped_date`. -/
def inPrimaryWindow (now : Int) (a : Article) : Bool :=
  match a.scraped_date with
  | some t => decide (midnightUTC now - 30 * 86400 ≤ t) && decide (t < midnightUTC now + 86400)
  | none => false

/-- Lines 39-69: query the primary 30-day window, fall back to the whole
collection when it comes back empty, return early when that is empty too,
and only then drop rows whose `scraped_date` did not parse. -/
def load_daily_articles (store : List Article) (now : Int) : List Article :=
  let data := store.filter (inPrimaryWindow now)
  let data := if data.isEmpty then store else data
  if data.isEmpty then []
  else data.filter (fun a => a.scraped_date.isSome)

/-- Lines 76-81: newest-format list (non-empty, first element has a label)
first, otherwise the legacy aggregate record, otherwise nothing. -/
def extractLabel : SentField → Option Text
  | SentField.arr [] => none
  | SentField.arr (o :: _) => o
  | SentField.dict (some (some l)) => some l
  | SentField.dict _ => none
  | SentField.other => none

/-- Lines 74-82: one label per row of `df['sentiment_analysis'].dropna()`. -/
def sentiment_labels (df : List Article) : List Text :=
  df.filterMap (fun a => a.sentiment_analysis.bind extractLabel)

/-- Keys of a Python dict (hence of a `Counter`) in first-insertion order. -/
def firstSeen : List Text → List Text
  | [] => []
  | t :: rest => t :: (firstSeen rest).filter (fun a => a != t)

/-- `Counter(l).items()`: keys in first-seen order, each with its count. -/
def counterItems (l : List Text) : List (Text × Nat) :=
  (firstSeen l).map (fun t => (t, l.count t))

/-- Line 83. -/
def sentiment_summary (df : List Article) : List (Text × Nat) :=
  counterItems (sentiment_labels df)

/-- Line 85: flatten the tag sequences of the rows whose tag field is
present. -/
def flatTags (df : List Article) : List Text :=
  (df.filterMap (fun a => a.tags)).flatten

/-- Stable insertion into a descending list: the new element is placed
before every element it is not strictly below. -/
def insDesc {α : Type} (gt : α → α → Bool) (x : α) : List α → List α
  | [] => [x]
  | y :: t => if gt y x then y :: insDesc gt x t else x :: y :: t

/-- Stable descending sort, as `heapq.nlargest` (used by
`Counter.most_common`) is documented to behave: `sorted(key, reverse=True)`
with ties kept in input order. -/
def sortDesc {α : Type} (gt : α → α → Bool) : List α → List α
  | [] => []
  | a :: t => insDesc gt a (sortDesc gt t)

def cntGt (p q : Text × Nat) : Bool := decide (q.2 < p.2)

/-- Line 86: `Counter(tags).most_common(10)`. -/
def top_keywords (df : List Article) : List (Text × Nat) :=
  (sortDesc cntGt (counterItems (flatTags df))).take 10

/-- Line 88: rows surviving `dropna(subset=['upvotes', 'comments'])`. -/
def engOk (a : Article) : Bool := a.upvotes.isSome && a.comments.isSome

def engKey (a : Article) : Int × Int := (a.upvotes.getD 0, a.comments.getD 0)

/-- Strict descending comparison used by
`sort_values(by=['upvotes', 'comments'], ascending=False)`. -/
def engGt (a b : Article) : Bool :=
  decide ((engKey b).1 < (engKey a).1) ||
    (decide ((engKey a).1 = (engKey b).1) && decide ((engKey b).2 < (engKey a).2))

/-- Lines 88-89. -/
def top_engaged (df : List Article) : List Article :=
  (sortDesc engGt (df.filter engOk)).take 5

/-- The data assembled into the generation request (lines 72-127); the
constant instruction template around it is elided as pure literal text. -/
structure Prompt where
  sentiment : List (Text × Nat)
  keywords : List (Text × Nat)
  engaged : List Article
  snippets : List Text

/-- Lines 72-127, including line 91's per-document 1000-character content
sample with absent content treated as the empty string. -/
def build_prompt (df : List Article) : Prompt :=
  ⟨sentiment_summary df, top_keywords df, top_engaged df,
    df.map (fun a => (a.content.getD []).take 1000)⟩

/-- Line 132. -/
def header : Text :=
  "### Structured Summary of Public Discussions Related to the Condominium Authority of Ontario (CAO)".data

/-- Python `str.strip()` whitespace set (space, tab, newline, carriage
return, vertical tab, form feed). -/
def isPySpace (c : Char) : Bool :=
  c == ' ' || c == '\t' || c == '\n' || c == '\r' || c == Char.ofNat 11 || c == Char.ofNat 12

/-- Python `str.strip()`. -/
def pyStrip (s : Text) : Text :=
  ((s.dropWhile isPySpace).reverse.dropWhile isPySpace).reverse

/-- Python `str.find`: the lowest index at which `pat` occurs, if any. -/
def findSub (pat : Text) : Text → Option Nat
  | [] => if pat.isPrefixOf ([] : Text) then some 0 else none
  | c :: t => if pat.isPrefixOf (c :: t) then some 0 else (findSub pat t).map (fun i => i + 1)

/-- Lines 130-140: keep everything from the first occurrence of the header
onwards, stripped; strip the whole text when the header is absent. -/
def clean_summary (s : Text) : Text :=
  match findSub header s with
  | some i => pyStrip (s.drop i)
  | none => pyStrip s

/-- Lines 142-157: success strips then post-processes the raw response;
every exception is wrapped into a RuntimeError prefixing the cause with
"LLM failed: " and re-raised.  `gen` stands for the whole client call. -/
def generate_summary (gen : Prompt → Except Text Text) (p : Prompt) : Except Text Text :=
  match gen p with
  | Except.ok raw => Except.ok (clean_summary (pyStrip raw))
  | Except.error e => Except.error ("LLM failed: ".data ++ e)

/-- Lines 159-171: the body text handed to `msg.set_content`. -/
def emailBody (date_str : Text) (summary : Text) (article_count : Nat) : Text :=
  "Summary for ".data ++ date_str ++ "\n\nArticles processed: ".data ++
    natStr article_count ++ "\n\nSummary:\n".data ++ summary.take 3000 ++ "...".data

/-- One persisted summary record (lines 201-209). -/
structure Report where
  date : Int
  summary : Text
  articles : Nat
deriving DecidableEq

/-- `update_one` with `upsert=True` keyed on `date` and a full `$set`:
replace the first record carrying the same date, else append. -/
def upsertReport : List Report → Report → List Report
  | [], r => [r]
  | c :: rest, r => if c.date == r.date then r :: rest else c :: upsertReport rest r

/-- Number of records keyed by date `d`. -/
def countD (coll : List Report) (d : Int) : Nat := coll.countP (fun r => r.date == d)

/-- Observable outcome of one completed run: every email body handed to the
notifier, how many generation calls were made, the summaries collection
afterwards, and the record upserted by this run, if any. -/
structure RunResult where
  notifications : List Text
  genCalls : Nat
  collection : List Report
  persisted : Option Report
deriving DecidableEq

/-- Line 197: the metadata footer appended to the cleaned narrative. -/
def metaFooter (d : Int) (n : Nat) : Text :=
  "\n\n---\n\n#### ** Metadata**  \n- **Generated at**: ".data ++ intStr d ++
    "Z  \n- **Total Articles Analyzed**: ".data ++ natStr n

/-- Lines 182-217.  `loadErr` models an exception raised by the document
store query (line 183, outside the try block), `gen` the generation client
call, `persistErr` an exception raised by `update_one`; an `Except.error`
result is an unhandled exception propagating out of `run_summary`. -/
def run_summary (store : List Article) (loadErr : Option Text) (now : Int)
    (gen : Prompt → Except Text Text) (persistErr : Option Text)
    (coll : List Report) : Except Text RunResult :=
  match loadErr with
  | some e => Except.error e
  | none =>
    let df := load_daily_articles store now
    let date_dt := midnightUTC now
    let date_str := intStr date_dt
    if df.isEmpty then
      Except.ok ⟨[emailBody date_str "No articles found today.".data 0], 0, coll, none⟩
    else
      match generate_summary gen (build_prompt df) with
      | Except.error e =>
        Except.ok ⟨[emailBody date_str ("Summary failed: ".data ++ e) 0], 1, coll, none⟩
      | Except.ok summ =>
        let formatted := summ ++ metaFooter date_dt df.length
        match persistErr with
        | some e =>
          Except.ok ⟨[emailBody date_str ("Summary failed: ".data ++ e) 0], 1, coll, none⟩
        | none =>
          Except.ok ⟨[emailBody date_str formatted df.length], 1,
            upsertReport coll ⟨date_dt, formatted, df.length⟩,
            some ⟨date_dt, formatted, df.length⟩⟩

/-- Inputs of one scheduled invocation. -/
structure RunIn where
  store : List Article
  loadErr : Option Text
  now : Int
  gen : Prompt → Except Text Text
  persistErr : Option Text

/-- The summaries collection after a run, unchanged when the run crashed. -/
def collAfter (x : Except Text RunResult) (coll : List Report) : List Report :=
  match x with
  | Except.error _ => coll
  | Except.ok r => r.collection

def runStep (coll : List Report) (i : RunIn) : List Report :=
  collAfter (run_summary i.store i.loadErr i.now i.gen i.persistErr coll) coll

/-- A one-document store used by concrete instantiations below. -/
def doc0 : Article := ⟨some 0, none, [], none, none, none, none⟩

def store3 : List Article := [doc0]

/- ## General helper lemmas -/

theorem natStr_getLast (n : Nat) :
    ∃ m, m < 10 ∧ (natStr n).getLast? = some (Nat.digitChar m) := by
  by_cases h : n < 10
  · exact ⟨n, h, by simp [natStr, natStrAux, h]⟩
  · refine ⟨n % 10, Nat.mod_lt _ (by omega), ?_⟩
    simp [natStr, natStrAux, h, List.getLast?_concat]

theorem natStr_ne_nil (n : Nat) : natStr n ≠ [] := by
  by_cases h : n < 10 <;> simp [natStr, natStrAux, h]

theorem digitChar_ne_dot (m : Nat) (h : m < 10) : Nat.digitChar m ≠ '.' := by
  interval_cases m <;> decide

theorem getLastQ_append {α : Type} :
    ∀ (l₁ l₂ : List α), l₂ ≠ [] → (l₁ ++ l₂).getLast? = l₂.getLast?
  | [], l₂, _ => by simp
  | a :: t, l₂, h => by
    rw [List.cons_append]
    cases ht : t ++ l₂ with
    | nil => exact absurd (List.append_eq_nil.mp ht).2 h
    | cons c cs =>
      rw [List.getLast?_cons_cons, ← ht, getLastQ_append t l₂ h]

theorem head_insDesc {α : Type} (gt : α → α → Bool) (x : α) :
    ∀ l : List α, (insDesc gt x l).head? = some x ∨ (insDesc gt x l).head? = l.head?
  | [] => Or.inl rfl
  | y :: t => by cases hgt : gt y x <;> simp [insDesc, hgt]

theorem chain_insDesc {α : Type} (gt : α → α → Bool)
    (asym : ∀ a b, gt a b = true → gt b a = false) (x : α) :
    ∀ l, List.Chain' (fun a b => gt b a = false) l →
      List.Chain' (fun a b => gt b a = false) (insDesc gt x l) := by
  intro l
  induction l with
  | nil => intro _; simp [insDesc]
  | cons y t ih =>
    intro h
    rcases List.chain'_cons'.mp h with ⟨hy, ht⟩
    cases hgt : gt y x with
    | true =>
      simp only [insDesc, hgt, if_true]
      refine List.chain'_cons'.mpr ⟨?_, ih ht⟩
      intro b hb
      rcases head_insDesc gt x t with hh | hh
      · rw [hh] at hb
        simp only [Option.mem_def, Option.some_inj] at hb
        subst hb
        exact asym _ _ hgt
      · rw [hh] at hb
        exact hy b hb
    | false =>
      simp only [insDesc, hgt, Bool.false_eq_true, if_false]
      refine List.chain'_cons'.mpr ⟨?_, h⟩
      intro b hb
      simp only [List.head?_cons, Option.mem_def, Option.some_inj] at hb
      subst hb
      exact hgt

theorem mem_insDesc {α : Type} (gt : α → α → Bool) (x a : α) :
    ∀ l, a ∈ insDesc gt x l ↔ a = x ∨ a ∈ l
  | [] => by simp [insDesc]
  | y :: t => by
    cases hgt : gt y x <;> simp [insDesc, hgt, mem_insDesc gt x a t] <;> tauto

theorem mem_sortDesc {α : Type} (gt : α → α → Bool) (a : α) :
    ∀ l, a ∈ sortDesc gt l ↔ a ∈ l
  | [] => Iff.rfl
  | y :: t => by simp [sortDesc, mem_insDesc, mem_sortDesc gt a t]

theorem chain_sortDesc {α : Type} (gt : α → α → Bool)
    (asym : ∀ a b, gt a b = true → gt b a = false) :
    ∀ l, List.Chain' (fun a b => gt b a = false) (sortDesc gt l)
  | [] => by simp [sortDesc]
  | a :: t => chain_insDesc gt asym a _ (chain_sortDesc gt asym t)

theorem chain_take {α : Type} {R : α → α → Prop} :
    ∀ (l : List α) (n : Nat), List.Chain' R l → List.Chain' R (l.take n) := by
  intro l
  induction l with
  | nil => intro n _; simp
  | cons a t ih =>
    intro n h
    cases n with
    | zero => simp
    | succ m =>
      rcases List.chain'_cons'.mp h with ⟨ha, ht⟩
      rw [List.take_succ_cons]
      refine List.chain'_cons'.mpr ⟨?_, ih m ht⟩
      intro b hb
      apply ha
      cases t with
      | nil => simp at hb
      | cons c cs =>
        cases m with
        | zero => simp at hb
        | succ k => simpa using hb

theorem filter_insDesc {α : Type} (gt : α → α → Bool) (p : α → Bool)
    (hpg : ∀ a b, gt a b = true → p b = true → p a = false) (x : α) :
    ∀ l, (insDesc gt x l).filter p = if p x then x :: l.filter p else l.filter p
  | [] => by cases hx : p x <;> simp [insDesc, hx]
  | y :: t => by
    cases hgt : gt y x with
    | true =>
      cases hx : p x with
      | true =>
        have hy : p y = false := hpg y x hgt hx
        simp [insDesc, hgt, hx, hy, List.filter_cons, filter_insDesc gt p hpg x t]
      | false =>
        simp [insDesc, hgt, hx, List.filter_cons, filter_insDesc gt p hpg x t]
    | false =>
      cases hx : p x <;> simp [insDesc, hgt, hx, List.filter_cons]

theorem filter_sortDesc {α : Type} (gt : α → α → Bool) (p : α → Bool)
    (hpg : ∀ a b, gt a b = true → p b = true → p a = false) :
    ∀ l, (sortDesc gt l).filter p = l.filter p
  | [] => rfl
  | a :: t => by
    rw [sortDesc, filter_insDesc gt p hpg a (sortDesc gt t), filter_sortDesc gt p hpg t]
    cases ha : p a <;> simp [List.filter_cons, ha]

theorem mem_firstSeen (a : Text) : ∀ l, a ∈ firstSeen l ↔ a ∈ l
  | [] => Iff.rfl
  | t :: rest => by
    by_cases hat : a = t
    · subst hat; simp [firstSeen]
    · simp [firstSeen, List.mem_filter, bne_iff_ne, hat, mem_firstSeen a rest]

theorem nodup_firstSeen : ∀ l : List Text, (firstSeen l).Nodup
  | [] => List.nodup_nil
  | t :: rest => by
    simp only [firstSeen]
    refine List.nodup_cons.mpr ⟨?_, (nodup_firstSeen rest).filter _⟩
    intro hmem
    rcases List.mem_filter.mp hmem with ⟨-, hne⟩
    exact absurd rfl (bne_iff_ne.mp hne)

theorem sum_extract (f : Text → Nat) :
    ∀ l : List Text, l.Nodup → ∀ x, x ∈ l →
      (l.map f).sum = f x + ((l.filter (fun b => b != x)).map f).sum := by
  intro l
  induction l with
  | nil => intro _ x hx; simp at hx
  | cons y t ih =>
    intro hnd x hx
    rcases List.nodup_cons.mp hnd with ⟨hyt, hndt⟩
    by_cases hxy : x = y
    · subst hxy
      have hf : t.filter (fun b => b != x) = t :=
        List.filter_eq_self.mpr (fun b hb => bne_iff_ne.mpr (fun hbx => hyt (hbx ▸ hb)))
      simp [List.filter_cons, hf]
    · have hxt : x ∈ t := by
        rcases List.mem_cons.mp hx with h | h
        · exact absurd h hxy
        · exact h
      have hrec := ih hndt x hxt
      have hyx : (y != x) = true := bne_iff_ne.mpr (fun h => hxy h.symm)
      simp [List.filter_cons, hyx, hrec]
      omega

theorem sum_firstSeen_count : ∀ l : List Text,
    ((firstSeen l).map (fun t => l.count t)).sum = l.length := by
  intro l
  induction l with
  | nil => simp [firstSeen]
  | cons t rest ih =>
    simp only [firstSeen, List.map_cons, List.sum_cons]
    have hmapcg : ((firstSeen rest).filter (fun a => a != t)).map (fun a => (t :: rest).count a)
        = ((firstSeen rest).filter (fun a => a != t)).map (fun a => rest.count a) := by
      apply List.map_congr_left
      intro a ha
      rcases List.mem_filter.mp ha with ⟨-, hne⟩
      exact List.count_cons_of_ne (bne_iff_ne.mp hne) rest
    rw [hmapcg, List.count_cons_self]
    by_cases ht : t ∈ rest
    · have htf : t ∈ firstSeen rest := (mem_firstSeen t rest).mpr ht
      have hext := sum_extract (fun a => rest.count a) (firstSeen rest) (nodup_firstSeen rest) t htf
      rw [ih] at hext
      have hext2 : rest.length
          = rest.count t + (((firstSeen rest).filter (fun b => b != t)).map
              (fun a => rest.count a)).sum := hext
      simp only [List.length_cons]
      omega
    · have h0 : rest.count t = 0 := List.count_eq_zero_of_not_mem ht
      have htf : t ∉ firstSeen rest := fun h => ht ((mem_firstSeen t rest).mp h)
      have hfe : (firstSeen rest).filter (fun a => a != t) = firstSeen rest :=
        List.filter_eq_self.mpr (fun b hb => bne_iff_ne.mpr (fun hbt => htf (hbt ▸ hb)))
      rw [hfe, ih, h0]
      simp only [List.length_cons]
      omega

theorem sum_counterItems (l : List Text) :
    ((counterItems l).map (fun p => p.2)).sum = l.length := by
  rw [counterItems, List.map_map]
  exact sum_firstSeen_count l

theorem length_filterMap_eq (f : Article → Option Text) :
    ∀ l : List Article, (l.filterMap f).length = (l.filter (fun a => (f a).isSome)).length := by
  intro l
  induction l with
  | nil => rfl
  | cons a t ih =>
    cases hf : f a <;> simp [List.filterMap_cons, hf, List.filter_cons, ih]

theorem isPrefixOf_ex : ∀ (p l : Text), p.isPrefixOf l = true ↔ ∃ t, p ++ t = l := by
  intro p
  induction p with
  | nil => intro l; simp [List.isPrefixOf]
  | cons a p ih =>
    intro l
    cases l with
    | nil => simp [List.isPrefixOf]
    | cons b t =>
      simp only [List.isPrefixOf, Bool.and_eq_true, beq_iff_eq, ih t, List.cons_append,
        List.cons.injEq]
      constructor
      · rintro ⟨hab, s, hs⟩
        exact ⟨s, hab, hs⟩
      · rintro ⟨s, hab, hs⟩
        exact ⟨hab, s, hs⟩

theorem findSub_some (pat : Text) :
    ∀ (l : Text) (i : Nat), findSub pat l = some i →
      pat.isPrefixOf (l.drop i) = true ∧ ∀ j, j < i → pat.isPrefixOf (l.drop j) = false := by
  intro l
  induction l with
  | nil =>
    intro i h
    simp only [findSub] at h
    split at h
    · rename_i hp
      cases h
      exact ⟨by simpa using hp, fun j hj => absurd hj (Nat.not_lt_zero j)⟩
    · exact absurd h (by simp)
  | cons c t ih =>
    intro i h
    simp only [findSub] at h
    split at h
    · rename_i hp
      cases h
      exact ⟨by simpa using hp, fun j hj => absurd hj (Nat.not_lt_zero j)⟩
    · rename_i hp
      rcases Option.map_eq_some'.mp h with ⟨k, hk, hki⟩
      subst hki
      rcases ih k hk with ⟨h1, h2⟩
      refine ⟨by simpa [List.drop_succ_cons] using h1, ?_⟩
      intro j hj
      cases j with
      | zero =>
        rw [List.drop_zero]
        cases hb : List.isPrefixOf pat (c :: t)
        · rfl
        · exact absurd hb hp
      | succ m =>
        rw [List.drop_succ_cons]
        exact h2 m (by omega)

theorem findSub_none (pat : Text) :
    ∀ l : Text, findSub pat l = none → ∀ j, pat.isPrefixOf (l.drop j) = false := by
  intro l
  induction l with
  | nil =>
    intro h j
    simp only [findSub] at h
    split at h
    · exact absurd h (by simp)
    · rename_i hp
      rw [List.drop_nil]
      cases hb : List.isPrefixOf pat ([] : Text)
      · rfl
      · exact absurd hb hp
  | cons c t ih =>
    intro h j
    simp only [findSub] at h
    split at h
    · exact absurd h (by simp)
    · rename_i hp
      have hnone : findSub pat t = none := by
        cases hft : findSub pat t
        · rfl
        · rw [hft] at h; simp at h
      cases j with
      | zero =>
        rw [List.drop_zero]
        cases hb : List.isPrefixOf pat (c :: t)
        · rfl
        · exact absurd hb hp
      | succ m =>
        rw [List.drop_succ_cons]
        exact ih hnone m

theorem takeWhile_sat (p : Char → Bool) :
    ∀ (l : Text) (c : Char), c ∈ l.takeWhile p → p c = true
  | [], c, hc => by simp at hc
  | a :: t, c, hc => by
    rw [List.takeWhile_cons] at hc
    cases hpa : p a with
    | true =>
      rw [hpa] at hc
      simp only [if_true] at hc
      rcases List.mem_cons.mp hc with h | h
      · subst h; exact hpa
      · exact takeWhile_sat p t c h
    | false =>
      rw [hpa] at hc
      simp at hc

theorem pyStrip_decomp (l : Text) :
    ∃ a b, l = a ++ pyStrip l ++ b
      ∧ (∀ c ∈ a, isPySpace c = true) ∧ (∀ c ∈ b, isPySpace c = true) := by
  refine ⟨l.takeWhile isPySpace,
    ((l.dropWhile isPySpace).reverse.takeWhile isPySpace).reverse, ?_, ?_, ?_⟩
  · have h2 : l.dropWhile isPySpace
        = pyStrip l ++ ((l.dropWhile isPySpace).reverse.takeWhile isPySpace).reverse := by
      calc l.dropWhile isPySpace
          = (l.dropWhile isPySpace).reverse.reverse := (List.reverse_reverse _).symm
        _ = ((l.dropWhile isPySpace).reverse.takeWhile isPySpace
              ++ (l.dropWhile isPySpace).reverse.dropWhile isPySpace).reverse := by
            rw [List.takeWhile_append_dropWhile]
        _ = pyStrip l ++ ((l.dropWhile isPySpace).reverse.takeWhile isPySpace).reverse := by
            rw [List.reverse_append]
            rfl
    conv_lhs => rw [← List.takeWhile_append_dropWhile (p := isPySpace) (l := l), h2]
    rw [List.append_assoc]
  · intro c hc
    exact takeWhile_sat isPySpace l c hc
  · intro c hc
    exact takeWhile_sat isPySpace _ c (List.mem_reverse.mp hc)

/- ## Branch behavior of run_summary -/

theorem run_loadErr (store : List Article) (now : Int) (gen : Prompt → Except Text Text)
    (persistErr : Option Text) (coll : List Report) (e : Text) :
    run_summary store (some e) now gen persistErr coll = Except.error e := rfl

theorem run_empty (store : List Article) (now : Int) (gen : Prompt → Except Text Text)
    (persistErr : Option Text) (coll : List Report)
    (h : load_daily_articles store now = []) :
    run_summary store none now gen persistErr coll
      = Except.ok ⟨[emailBody (intStr (midnightUTC now)) "No articles found today.".data 0],
          0, coll, none⟩ := by
  simp [run_summary, h]

theorem run_genError (store : List Article) (now : Int) (gen : Prompt → Except Text Text)
    (persistErr : Option Text) (coll : List Report) (e : Text)
    (h1 : load_daily_articles store now ≠ [])
    (h2 : gen (build_prompt (load_daily_articles store now)) = Except.error e) :
    run_summary store none now gen persistErr coll
      = Except.ok ⟨[emailBody (intStr (midnightUTC now))
          ("Summary failed: ".data ++ ("LLM failed: ".data ++ e)) 0], 1, coll, none⟩ := by
  simp [run_summary, generate_summary, h2, List.isEmpty_iff, h1]

theorem run_persistErr (store : List Article) (now : Int) (gen : Prompt → Except Text Text)
    (coll : List Report) (raw : Text) (pe : Text)
    (h1 : load_daily_articles store now ≠ [])
    (h2 : gen (build_prompt (load_daily_articles store now)) = Except.ok raw) :
    run_summary store none now gen (some pe) coll
      = Except.ok ⟨[emailBody (intStr (midnightUTC now))
          ("Summary failed: ".data ++ pe) 0], 1, coll, none⟩ := by
  simp [run_summary, generate_summary, h2, List.isEmpty_iff, h1]

theorem run_success (store : List Article) (now : Int) (gen : Prompt → Except Text Text)
    (coll : List Report) (raw : Text)
    (h1 : load_daily_articles store now ≠ [])
    (h2 : gen (build_prompt (load_daily_articles store now)) = Except.ok raw) :
    run_summary store none now gen none coll
      = Except.ok ⟨[emailBody (intStr (midnightUTC now))
            (clean_summary (pyStrip raw)
              ++ metaFooter (midnightUTC now) (load_daily_articles store now).length)
            (load_daily_articles store now).length],
          1,
          upsertReport coll ⟨midnightUTC now,
            clean_summary (pyStrip raw)
              ++ metaFooter (midnightUTC now) (load_daily_articles store now).length,
            (load_daily_articles store now).length⟩,
          some ⟨midnightUTC now,
            clean_summary (pyStrip raw)
              ++ metaFooter (midnightUTC now) (load_daily_articles store now).length,
            (load_daily_articles store now).length⟩⟩ := by
  simp [run_summary, generate_summary, h2, List.isEmpty_iff, h1]

/- ## Upsert lemmas -/

theorem countD_cons (c : Report) (rest : List Report) (d : Int) :
    countD (c :: rest) d = countD rest d + if c.date = d then 1 else 0 := by
  simp [countD, List.countP_cons]

theorem countD_append (l1 l2 : List Report) (d : Int) :
    countD (l1 ++ l2) d = countD l1 d + countD l2 d := by
  simp [countD, List.countP_append]

theorem countD_upsert_zero (r : Report) (d : Int) :
    ∀ coll : List Report, countD coll d = 0 → r.date ≠ d →
      countD (upsertReport coll r) d = 0 := by
  intro coll
  induction coll with
  | nil =>
    intro _ hrd
    have he : upsertReport [] r = [r] := rfl
    rw [he, countD_cons, if_neg hrd]
    rfl
  | cons c rest ih =>
    intro h0 hrd
    rw [countD_cons] at h0
    simp only [upsertReport]
    split
    · rename_i hcr
      rw [countD_cons, if_neg hrd]
      by_cases hcd : c.date = d
      · rw [if_pos hcd] at h0; omega
      · rw [if_neg hcd] at h0; omega
    · rename_i hcr
      rw [countD_cons]
      by_cases hcd : c.date = d
      · rw [if_pos hcd] at h0; omega
      · rw [if_neg hcd] at h0
        rw [if_neg hcd]
        have hr0 : countD rest d = 0 := by omega
        rw [ih hr0 hrd]

theorem countD_upsert_le (r : Report) (d : Int) :
    ∀ coll : List Report, countD coll d ≤ 1 → countD (upsertReport coll r) d ≤ 1 := by
  intro coll
  induction coll with
  | nil =>
    intro _
    have he : upsertReport [] r = [r] := rfl
    rw [he, countD_cons]
    have h0 : countD ([] : List Report) d = 0 := rfl
    rw [h0]
    split <;> omega
  | cons c rest ih =>
    intro h
    rw [countD_cons] at h
    simp only [upsertReport]
    split
    · rename_i hcr
      rw [beq_iff_eq] at hcr
      rw [hcr] at h
      rw [countD_cons]
      exact h
    · rename_i hcr
      rw [beq_iff_eq] at hcr
      rw [countD_cons]
      by_cases hcd : c.date = d
      · rw [if_pos hcd] at h ⊢
        have h0 : countD rest d = 0 := by omega
        have hrd : r.date ≠ d := fun hh => hcr (hcd.trans hh.symm)
        rw [countD_upsert_zero r d rest h0 hrd]
      · rw [if_neg hcd] at h ⊢
        have h1 : countD rest d ≤ 1 := by omega
        have h2 := ih h1
        omega

theorem upsert_in_place (r : Report) :
    ∀ coll : List Report, 0 < countD coll r.date →
      (upsertReport coll r).length = coll.length
        ∧ countD (upsertReport coll r) r.date = countD coll r.date := by
  intro coll
  induction coll with
  | nil => intro h; simp [countD] at h
  | cons c rest ih =>
    intro h
    simp only [upsertReport]
    split
    · rename_i hcr
      rw [beq_iff_eq] at hcr
      refine ⟨by simp, ?_⟩
      rw [countD_cons, countD_cons, hcr]
    · rename_i hcr
      rw [beq_iff_eq] at hcr
      rw [countD_cons] at h
      have hpos : 0 < countD rest r.date := by
        by_cases hcd : c.date = r.date
        · exact absurd hcd hcr
        · rw [if_neg hcd] at h; omega
      rcases ih hpos with ⟨hl, hc⟩
      refine ⟨by simp [hl], ?_⟩
      rw [countD_cons, countD_cons, hc]

theorem upsert_append (r : Report) :
    ∀ coll : List Report, countD coll r.date = 0 →
      upsertReport coll r = coll ++ [r]
        ∧ countD (upsertReport coll r) r.date = 1 := by
  intro coll
  induction coll with
  | nil =>
    intro _
    refine ⟨rfl, ?_⟩
    have he : upsertReport [] r = [r] := rfl
    rw [he, countD_cons, if_pos rfl]
    rfl
  | cons c rest ih =>
    intro h0
    rw [countD_cons] at h0
    simp only [upsertReport]
    split
    · rename_i hcr
      rw [beq_iff_eq] at hcr
      rw [if_pos hcr] at h0
      exfalso
      omega
    · rename_i hcr
      rw [beq_iff_eq] at hcr
      have hr0 : countD rest r.date = 0 := by
        by_cases hcd : c.date = r.date
        · exact absurd hcd hcr
        · rw [if_neg hcd] at h0; omega
      rcases ih hr0 with ⟨he, hc⟩
      refine ⟨by simp [he], ?_⟩
      rw [countD_cons, hc, if_neg hcr]

/- ## Claim theorems -/

/-- Claim C6: the sentiment counts computed by the aggregator sum to exactly
the number of documents yielding a resolvable label, where a document
resolves by the newest format (non-empty list whose first element carries a
label) first, falling back to the legacy aggregate record, documents
matching neither shape or with an absent field contribute nothing, and
labels are counted exactly as stored. -/
theorem sentiment_counts_sum_spec (df : List Article) :
    ((sentiment_summary df).map (fun p => p.2)).sum
      = (df.filter (fun a => (a.sentiment_analysis.bind extractLabel).isSome)).length
  ∧ (∀ (l : Text) (rest : List (Option Text)),
      extractLabel (SentField.arr (some l :: rest)) = some l)
  ∧ (∀ rest : List (Option Text), extractLabel (SentField.arr (none :: rest)) = none)
  ∧ (∀ l : Text, extractLabel (SentField.dict (some (some l))) = some l)
  ∧ extractLabel (SentField.arr []) = none
  ∧ extractLabel (SentField.dict none) = none := by
  refine ⟨?_, fun l rest => rfl, fun rest => rfl, fun l => rfl, rfl, rfl⟩
  rw [sentiment_summary, sum_counterItems, sentiment_labels]
  exact length_filterMap_eq _ df

/-- Claim C7: `top_keywords` has length at most 10, its counts are
non-increasing, the entries carrying any fixed count form an initial
segment of the counter items at that count (whose keys are in first-seen
order of the flattened tag bag), and every listed count is the true
frequency of its tag. -/
theorem top_keywords_spec (df : List Article) :
    (top_keywords df).length ≤ 10
  ∧ List.Chain' (fun p q => q.2 ≤ p.2) (top_keywords df)
  ∧ (∀ c : Nat, ∃ rest, (counterItems (flatTags df)).filter (fun p => p.2 == c)
      = (top_keywords df).filter (fun p => p.2 == c) ++ rest)
  ∧ (∀ (t : Text) (c : Nat), (t, c) ∈ top_keywords df → c = (flatTags df).count t) := by
  have hasym : ∀ a b : Text × Nat, cntGt a b = true → cntGt b a = false := by
    intro a b h
    simp only [cntGt, decide_eq_true_eq] at h
    simp only [cntGt, decide_eq_false_iff_not]
    omega
  refine ⟨?_, ?_, ?_, ?_⟩
  · rw [top_keywords]
    simp [List.length_take]
  · have hc := chain_sortDesc cntGt hasym (counterItems (flatTags df))
    have hc2 : List.Chain' (fun p q : Text × Nat => q.2 ≤ p.2)
        (sortDesc cntGt (counterItems (flatTags df))) := by
      refine List.Chain'.imp ?_ hc
      intro a b h
      simp only [cntGt, decide_eq_false_iff_not] at h
      omega
    exact chain_take _ 10 hc2
  · intro c
    have hpg : ∀ a b : Text × Nat, cntGt a b = true → (b.2 == c) = true → (a.2 == c) = false := by
      intro a b h hb
      simp only [cntGt, decide_eq_true_eq] at h
      rw [beq_iff_eq] at hb
      rw [beq_eq_false_iff_ne]
      omega
    have hfs := filter_sortDesc cntGt (fun p => p.2 == c) hpg (counterItems (flatTags df))
    refine ⟨((sortDesc cntGt (counterItems (flatTags df))).drop 10).filter (fun p => p.2 == c), ?_⟩
    rw [← hfs, top_keywords, ← List.filter_append, List.take_append_drop]
  · intro t c hm
    have hmem : (t, c) ∈ sortDesc cntGt (counterItems (flatTags df)) := List.mem_of_mem_take hm
    rw [mem_sortDesc, counterItems] at hmem
    rcases List.mem_map.mp hmem with ⟨x, hx, hxe⟩
    cases hxe
    rfl

/-- Claim C7: sample instantiation (the membership hypothesis discharged on a
one-document store with a single tag). -/
theorem top_keywords_spec_w :
    1 = (flatTags [⟨some 0, none, [], none, none, some [("a".data)], none⟩]).count ("a".data) :=
  (top_keywords_spec [⟨some 0, none, [], none, none, some [("a".data)], none⟩]).2.2.2
    ("a".data) 1 (by decide)

/-- Claim C8: `top_engaged` is computed only over documents with both
engagement fields present, has length at most 5, and is non-increasing
under the lexicographic order on (upvotes, comments). -/
theorem top_engaged_spec (df : List Article) :
    (top_engaged df).length ≤ 5
  ∧ List.Chain' (fun a b =>
      (engKey b).1 < (engKey a).1
        ∨ ((engKey a).1 = (engKey b).1 ∧ (engKey b).2 ≤ (engKey a).2)) (top_engaged df)
  ∧ (∀ a ∈ top_engaged df, a ∈ df ∧ a.upvotes.isSome = true ∧ a.comments.isSome = true) := by
  have hasym : ∀ a b : Article, engGt a b = true → engGt b a = false := by
    intro a b h
    cases hba : engGt b a
    · rfl
    · exfalso
      simp only [engGt, Bool.or_eq_true, Bool.and_eq_true, decide_eq_true_eq] at h hba
      rcases h with h | ⟨h1, h2⟩ <;> rcases hba with hb | ⟨hb1, hb2⟩ <;> omega
  refine ⟨?_, ?_, ?_⟩
  · rw [top_engaged]
    simp [List.length_take]
  · have hc := chain_sortDesc engGt hasym (df.filter engOk)
    have hc2 : List.Chain' (fun a b : Article =>
        (engKey b).1 < (engKey a).1
          ∨ ((engKey a).1 = (engKey b).1 ∧ (engKey b).2 ≤ (engKey a).2))
        (sortDesc engGt (df.filter engOk)) := by
      refine List.Chain'.imp ?_ hc
      intro a b h
      simp only [engGt, Bool.or_eq_false_iff, Bool.and_eq_false_iff,
        decide_eq_false_iff_not] at h
      rcases h with ⟨h1, h2⟩
      rcases h2 with h2 | h2 <;> omega
    exact chain_take _ 5 hc2
  · intro a ha
    have hmem : a ∈ sortDesc engGt (df.filter engOk) := List.mem_of_mem_take ha
    rw [mem_sortDesc] at hmem
    rcases List.mem_filter.mp hmem with ⟨hdf, hok⟩
    rw [engOk, Bool.and_eq_true] at hok
    exact ⟨hdf, hok.1, hok.2⟩

/-- Claim C8: sample instantiation on a one-document store with both
engagement fields present. -/
theorem top_engaged_spec_w :
    (⟨some 0, none, [], some 5, some 3, none, none⟩ : Article)
        ∈ [(⟨some 0, none, [], some 5, some 3, none, none⟩ : Article)]
      ∧ (⟨some 0, none, [], some 5, some 3, none, none⟩ : Article).upvotes.isSome = true
      ∧ (⟨some 0, none, [], some 5, some 3, none, none⟩ : Article).comments.isSome = true :=
  (top_engaged_spec [⟨some 0, none, [], some 5, some 3, none, none⟩]).2.2
    ⟨some 0, none, [], some 5, some 3, none, none⟩ (by decide)

/-- Claim C9: the selector queries the primary window over `scraped_date`
first ([today-30d, today+1d) with today truncated to midnight UTC); exactly
when that query is empty it falls back to the whole collection; and the
validity filter dropping unparseable dates is applied only after that
fallback decision. -/
theorem window_fallback_spec (store : List Article) (now : Int) :
    (store.filter (inPrimaryWindow now) ≠ [] →
       load_daily_articles store now
         = (store.filter (inPrimaryWindow now)).filter (fun a => a.scraped_date.isSome))
  ∧ (store.filter (inPrimaryWindow now) = [] →
       load_daily_articles store now = store.filter (fun a => a.scraped_date.isSome))
  ∧ (∀ a ∈ load_daily_articles store now, a ∈ store ∧ a.scraped_date.isSome = true)
  ∧ (∀ a : Article, inPrimaryWindow now a = true ↔
       ∃ t, a.scraped_date = some t
         ∧ midnightUTC now - 30 * 86400 ≤ t ∧ t < midnightUTC now + 86400) := by
  have h1 : store.filter (inPrimaryWindow now) ≠ [] →
      load_daily_articles store now
        = (store.filter (inPrimaryWindow now)).filter (fun a => a.scraped_date.isSome) := by
    intro h
    simp [load_daily_articles, List.isEmpty_iff, h]
  have h2 : store.filter (inPrimaryWindow now) = [] →
      load_daily_articles store now = store.filter (fun a => a.scraped_date.isSome) := by
    intro h
    by_cases hs : store = []
    · subst hs
      simp [load_daily_articles]
    · simp [load_daily_articles, List.isEmpty_iff, h, hs]
  refine ⟨h1, h2, ?_, ?_⟩
  · intro a ha
    by_cases h : store.filter (inPrimaryWindow now) = []
    · rw [h2 h] at ha
      rcases List.mem_filter.mp ha with ⟨hmem, hsome⟩
      exact ⟨hmem, hsome⟩
    · rw [h1 h] at ha
      rcases List.mem_filter.mp ha with ⟨hmem, hsome⟩
      rcases List.mem_filter.mp hmem with ⟨hmem2, -⟩
      exact ⟨hmem2, hsome⟩
  · intro a
    cases hd : a.scraped_date with
    | none => simp [inPrimaryWindow, hd]
    | some t =>
      simp only [inPrimaryWindow, hd, Bool.and_eq_true, decide_eq_true_eq, Option.some_inj]
      constructor
      · rintro ⟨hl, hr⟩
        exact ⟨t, rfl, hl, hr⟩
      · rintro ⟨u, hu, hl, hr⟩
        cases hu
        exact ⟨hl, hr⟩

/-- Claim C9: sample instantiation (primary window nonempty on a
one-document store, and a membership instance). -/
theorem window_fallback_spec_w :
    load_daily_articles store3 0
        = (store3.filter (inPrimaryWindow 0)).filter (fun a => a.scraped_date.isSome)
  ∧ (doc0 ∈ store3 ∧ doc0.scraped_date.isSome = true) :=
  ⟨(window_fallback_spec store3 0).1 (by decide),
   (window_fallback_spec store3 0).2.2.1 doc0 (by decide)⟩

/-- Claim C5: when the raw text contains the literal structured-output
marker, post-processing returns the suffix starting at the first occurrence
of the marker with surrounding whitespace trimmed (all preamble before the
marker discarded); when the marker is absent it returns the text with only
surrounding whitespace trimmed. -/
theorem clean_summary_spec (s : Text) :
    ((∃ pre suf, s = pre ++ header ++ suf) →
      ∃ pre suf, s = pre ++ header ++ suf
        ∧ clean_summary s = pyStrip (header ++ suf)
        ∧ (∀ pre2 suf2, s = pre2 ++ header ++ suf2 → pre.length ≤ pre2.length)
        ∧ ∃ a b, header ++ suf = a ++ clean_summary s ++ b
            ∧ (∀ ch ∈ a, isPySpace ch = true) ∧ (∀ ch ∈ b, isPySpace ch = true))
  ∧ ((¬ ∃ pre suf, s = pre ++ header ++ suf) →
      clean_summary s = pyStrip s
        ∧ ∃ a b, s = a ++ clean_summary s ++ b
            ∧ (∀ ch ∈ a, isPySpace ch = true) ∧ (∀ ch ∈ b, isPySpace ch = true)) := by
  constructor
  · rintro ⟨pre, suf, hdecomp⟩
    cases hfs : findSub header s with
    | none =>
      exfalso
      have hnone := findSub_none header s hfs pre.length
      have hpref : header.isPrefixOf (s.drop pre.length) = true := by
        rw [isPrefixOf_ex]
        exact ⟨suf, by rw [hdecomp, List.append_assoc, List.drop_left]⟩
      rw [hpref] at hnone
      simp at hnone
    | some i =>
      have hcs : clean_summary s = pyStrip (s.drop i) := by
        rw [clean_summary, hfs]
      rcases findSub_some header s i hfs with ⟨hpref, hmin⟩
      rcases (isPrefixOf_ex header (s.drop i)).mp hpref with ⟨suf0, hsuf0⟩
      have hne : s.drop i ≠ [] := by
        rw [← hsuf0]
        intro hh
        have hhead : header = [] := (List.append_eq_nil.mp hh).1
        exact absurd hhead (by simp [header])
      have hilen : i < s.length := by
        by_contra hle
        push_neg at hle
        exact hne (List.drop_eq_nil_iff.mpr hle)
      refine ⟨s.take i, suf0, ?_, ?_, ?_, ?_⟩
      · rw [List.append_assoc, hsuf0, List.take_append_drop]
      · rw [hcs, hsuf0]
      · intro pre2 suf2 hdec2
        have hp2 : header.isPrefixOf (s.drop pre2.length) = true := by
          rw [isPrefixOf_ex]
          exact ⟨suf2, by rw [hdec2, List.append_assoc, List.drop_left]⟩
        by_contra hlt
        push_neg at hlt
        have hlen : (s.take i).length = i := by
          rw [List.length_take]
          omega
        rw [hlen] at hlt
        have hflt := hmin pre2.length hlt
        rw [hp2] at hflt
        simp at hflt
      · rw [hcs, hsuf0]
        exact pyStrip_decomp (s.drop i)
  · intro hno
    cases hfs : findSub header s with
    | some i =>
      exfalso
      rcases findSub_some header s i hfs with ⟨hpref, -⟩
      rcases (isPrefixOf_ex header (s.drop i)).mp hpref with ⟨suf0, hsuf0⟩
      exact hno ⟨s.take i, suf0, by rw [List.append_assoc, hsuf0, List.take_append_drop]⟩
    | none =>
      have hcs : clean_summary s = pyStrip s := by rw [clean_summary, hfs]
      exact ⟨hcs, by rw [hcs]; exact pyStrip_decomp s⟩

/-- Claim C5: sample instantiation at a text that is exactly the marker. -/
theorem clean_summary_spec_w :
    ∃ pre suf, header = pre ++ header ++ suf
      ∧ clean_summary header = pyStrip (header ++ suf)
      ∧ (∀ pre2 suf2, header = pre2 ++ header ++ suf2 → pre.length ≤ pre2.length)
      ∧ ∃ a b, header ++ suf = a ++ clean_summary header ++ b
          ∧ (∀ ch ∈ a, isPySpace ch = true) ∧ (∀ ch ∈ b, isPySpace ch = true) :=
  (clean_summary_spec header).1 ⟨[], [], by simp⟩

theorem runStep_cases (i : RunIn) (coll : List Report) :
    runStep coll i = coll
      ∨ ∃ rep : Report, rep.date = midnightUTC i.now ∧ runStep coll i = upsertReport coll rep := by
  rcases i with ⟨store, loadErr, now, gen, persistErr⟩
  cases loadErr with
  | some e => exact Or.inl rfl
  | none =>
    by_cases hload : load_daily_articles store now = []
    · left
      simp only [runStep]
      rw [run_empty store now gen persistErr coll hload]
      rfl
    · cases hgen : gen (build_prompt (load_daily_articles store now)) with
      | error e =>
        left
        simp only [runStep]
        rw [run_genError store now gen persistErr coll e hload hgen]
        rfl
      | ok raw =>
        cases persistErr with
        | some pe =>
          left
          simp only [runStep]
          rw [run_persistErr store now gen coll raw pe hload hgen]
          rfl
        | none =>
          right
          refine ⟨⟨midnightUTC now, clean_summary (pyStrip raw)
              ++ metaFooter (midnightUTC now) (load_daily_articles store now).length,
              (load_daily_articles store now).length⟩, rfl, ?_⟩
          simp only [runStep]
          rw [run_success store now gen coll raw hload hgen]
          rfl

theorem emailBody_ne_metaFooter (ds s : Text) (d : Int) (n : Nat) :
    emailBody ds (s ++ metaFooter d n) n ≠ s ++ metaFooter d n := by
  intro heq
  have hlast1 : (emailBody ds (s ++ metaFooter d n) n).getLast? = some '.' := by
    rw [emailBody, getLastQ_append _ _ (by simp)]
    rfl
  have hfootne : metaFooter d n ≠ [] := by
    rw [metaFooter]
    intro hh
    exact natStr_ne_nil n (List.append_eq_nil.mp hh).2
  rcases natStr_getLast n with ⟨m, hm, hlm⟩
  have hlast2 : (s ++ metaFooter d n).getLast? = some (Nat.digitChar m) := by
    rw [getLastQ_append s (metaFooter d n) hfootne, metaFooter,
      getLastQ_append _ _ (natStr_ne_nil n), hlm]
  rw [heq, hlast2] at hlast1
  exact digitChar_ne_dot m hm (Option.some.inj hlast1)

/-- Claim C1: across any number of pipeline runs, the report collection
keeps at most one record keyed by any date; the upsert keyed on the run's
logical date overwrites the matching record in place (same length, same
count) and appends only when no record with that date exists; and every run
either leaves the collection unchanged or upserts one record keyed by the
run's midnight-truncated date. -/
theorem upsert_idempotent_spec (runs : List RunIn) (coll0 : List Report) (d : Int)
    (h : countD coll0 d ≤ 1) :
    countD (runs.foldl runStep coll0) d ≤ 1
  ∧ (∀ (coll : List Report) (r : Report), 0 < countD coll r.date →
      (upsertReport coll r).length = coll.length
        ∧ countD (upsertReport coll r) r.date = countD coll r.date)
  ∧ (∀ (coll : List Report) (r : Report), countD coll r.date = 0 →
      upsertReport coll r = coll ++ [r] ∧ countD (upsertReport coll r) r.date = 1)
  ∧ (∀ (i : RunIn) (coll : List Report), runStep coll i = coll
      ∨ ∃ rep : Report, rep.date = midnightUTC i.now ∧ runStep coll i = upsertReport coll rep) := by
  refine ⟨?_, fun coll r => upsert_in_place r coll, fun coll r => upsert_append r coll,
    fun i coll => runStep_cases i coll⟩
  induction runs generalizing coll0 with
  | nil => exact h
  | cons i rs ih =>
    rw [List.foldl_cons]
    apply ih
    rcases runStep_cases i coll0 with hs | ⟨rep, -, hs⟩
    · rw [hs]; exact h
    · rw [hs]; exact countD_upsert_le rep d coll0 h

/-- Claim C1: sample instantiation (one concrete run from an empty
collection, plus an in-place overwrite instance). -/
theorem upsert_idempotent_spec_w :
    countD (List.foldl runStep []
        [⟨store3, none, 0, fun _ => Except.ok [], none⟩]) 0 ≤ 1
  ∧ (upsertReport [⟨0, [], 1⟩] ⟨0, ['a'], 2⟩).length = ([⟨0, [], 1⟩] : List Report).length
  ∧ countD (upsertReport [⟨0, [], 1⟩] ⟨0, ['a'], 2⟩) (0 : Int) = countD [⟨0, [], 1⟩] (0 : Int) := by
  have h := upsert_idempotent_spec [⟨store3, none, 0, fun _ => Except.ok [], none⟩] [] 0
    (by decide)
  have h2 := h.2.1 [⟨0, [], 1⟩] ⟨0, ['a'], 2⟩ (by decide)
  exact ⟨h.1, h2.1, h2.2⟩

/-- Claim C2 (amended): every run in which the document-store query
succeeds attempts exactly one notification before terminating, on every
path (empty input, success, generation failure, persistence failure); a
run in which the document-store query raises propagates the exception and
attempts none. -/
theorem notify_exactly_once (store : List Article) (now : Int)
    (gen : Prompt → Except Text Text) (persistErr : Option Text) (coll : List Report) :
    (∃ r, run_summary store none now gen persistErr coll = Except.ok r
        ∧ r.notifications.length = 1)
  ∧ (∀ e, run_summary store (some e) now gen persistErr coll = Except.error e) := by
  refine ⟨?_, fun e => rfl⟩
  by_cases hload : load_daily_articles store now = []
  · exact ⟨_, run_empty store now gen persistErr coll hload, rfl⟩
  · cases hgen : gen (build_prompt (load_daily_articles store now)) with
    | error e => exact ⟨_, run_genError store now gen persistErr coll e hload hgen, rfl⟩
    | ok raw =>
      cases persistErr with
      | some pe => exact ⟨_, run_persistErr store now gen coll raw pe hload hgen, rfl⟩
      | none => exact ⟨_, run_success store now gen coll raw hload hgen, rfl⟩

/-- Claim C2 as stated is false on the code: a failing document-store query
(raised on line 183, outside the try block) terminates the run with no
notification attempt. -/
theorem notify_skipped_on_store_failure :
    run_summary [] (some ("db down".data)) 0 (fun _ => Except.ok []) none []
        = Except.error ("db down".data)
  ∧ ¬ ∃ r, run_summary [] (some ("db down".data)) 0 (fun _ => Except.ok []) none []
        = Except.ok r ∧ r.notifications.length = 1 := by
  refine ⟨rfl, ?_⟩
  rintro ⟨r, hr, -⟩
  exact absurd hr (by simp [run_summary])

/-- Claim C4: with zero documents in scope after fallback widening, the run
sends exactly one notification whose body embeds the "No articles found
today." indicator, makes zero generation calls, and persists nothing. -/
theorem empty_input_spec (store : List Article) (now : Int)
    (gen : Prompt → Except Text Text) (persistErr : Option Text) (coll : List Report)
    (h : load_daily_articles store now = []) :
    run_summary store none now gen persistErr coll
        = Except.ok ⟨[emailBody (intStr (midnightUTC now)) ("No articles found today.".data) 0],
            0, coll, none⟩
  ∧ ∃ pre suf, emailBody (intStr (midnightUTC now)) ("No articles found today.".data) 0
      = pre ++ ("No articles found today.".data) ++ suf := by
  refine ⟨run_empty store now gen persistErr coll h, ?_⟩
  rw [emailBody, List.take_of_length_le (by decide)]
  exact ⟨("Summary for ".data) ++ intStr (midnightUTC now) ++ ("\n\nArticles processed: ".data)
      ++ natStr 0 ++ ("\n\nSummary:\n".data), ("...".data), by simp [List.append_assoc]⟩

/-- Claim C4: sample instantiation on the empty store. -/
theorem empty_input_spec_w :
    run_summary [] none 0 (fun _ => Except.ok []) none []
        = Except.ok ⟨[emailBody (intStr (midnightUTC 0)) ("No articles found today.".data) 0],
            0, [], none⟩ :=
  (empty_input_spec [] 0 (fun _ => Except.ok []) none [] rfl).1

/-- Claim C3 (amended): when the generation call raises with cause `e`, the
run sends exactly one notification whose body embeds the failure message
"Summary failed: LLM failed: e" truncated to its first 3000 characters —
hence contains the full cause whenever that message fits in 3000
characters — and performs no report upsert, leaving the collection
unchanged. -/
theorem gen_failure_report_spec (store : List Article) (now : Int)
    (gen : Prompt → Except Text Text) (persistErr : Option Text) (coll : List Report) (e : Text)
    (h1 : load_daily_articles store now ≠ [])
    (h2 : gen (build_prompt (load_daily_articles store now)) = Except.error e) :
    ∃ r, run_summary store none now gen persistErr coll = Except.ok r
      ∧ r.collection = coll
      ∧ r.persisted = none
      ∧ r.notifications = [emailBody (intStr (midnightUTC now))
          (("Summary failed: ".data) ++ (("LLM failed: ".data) ++ e)) 0]
      ∧ ((("Summary failed: ".data) ++ (("LLM failed: ".data) ++ e)).length ≤ 3000 →
          ∀ b ∈ r.notifications, ∃ pre suf, b = pre ++ e ++ suf) := by
  refine ⟨_, run_genError store now gen persistErr coll e h1 h2, rfl, rfl, rfl, ?_⟩
  intro hlen b hb
  simp only [List.mem_singleton] at hb
  subst hb
  rw [emailBody, List.take_of_length_le hlen]
  exact ⟨("Summary for ".data) ++ intStr (midnightUTC now) ++ ("\n\nArticles processed: ".data)
      ++ natStr 0 ++ ("\n\nSummary:\n".data) ++ ("Summary failed: ".data)
      ++ ("LLM failed: ".data),
    ("...".data), by simp [List.append_assoc]⟩

/-- Claim C3: sample instantiation with a one-character cause, whose
failure message fits the 3000-character window. -/
theorem gen_failure_report_spec_w :
    ∃ pre suf, emailBody (intStr (midnightUTC 0))
        (("Summary failed: ".data) ++ (("LLM failed: ".data) ++ ['x'])) 0
      = pre ++ ['x'] ++ suf := by
  rcases gen_failure_report_spec store3 0 (fun _ => Except.error ['x']) none [] ['x']
      (by decide) rfl with ⟨r, hrun, hc, hp, hn, himp⟩
  have hb : emailBody (intStr (midnightUTC 0))
      (("Summary failed: ".data) ++ (("LLM failed: ".data) ++ ['x'])) 0 ∈ r.notifications := by
    rw [hn]
    exact List.mem_singleton.mpr rfl
  exact himp (by decide) _ hb

/-- Claim C3 as stated is false on the code: the notification body only
embeds `summary[:3000]`, so a failure cause of 3001 characters is not
contained in the delivered body. -/
theorem gen_failure_cause_truncated :
    ∃ r, run_summary store3 none 0 (fun _ => Except.error (List.replicate 3001 'z')) none []
        = Except.ok r
      ∧ ∀ b ∈ r.notifications, ¬ ∃ pre suf, b = pre ++ List.replicate 3001 'z' ++ suf := by
  refine ⟨_, run_genError store3 0 (fun _ => Except.error (List.replicate 3001 'z')) none []
      (List.replicate 3001 'z') (by decide) rfl, ?_⟩
  intro b hb
  simp only [List.mem_singleton] at hb
  subst hb
  rintro ⟨pre, suf, heq⟩
  have htake : ((("Summary failed: ".data)
        ++ (("LLM failed: ".data) ++ List.replicate 3001 'z'))).take 3000
      = ("Summary failed: ".data) ++ (("LLM failed: ".data) ++ List.replicate 2972 'z') := by
    rw [List.take_append_eq_append_take, List.take_of_length_le (by decide),
      List.take_append_eq_append_take, List.take_of_length_le (by decide),
      List.take_replicate]
    norm_num
  have hcnt : (emailBody (intStr (midnightUTC 0))
      (("Summary failed: ".data) ++ (("LLM failed: ".data) ++ List.replicate 3001 'z')) 0).count 'z'
      = 2972 := by
    rw [emailBody, htake]
    simp only [List.count_append, List.count_replicate_self]
    decide
  have hge : 3001 ≤ (pre ++ List.replicate 3001 'z' ++ suf).count 'z' := by
    rw [List.count_append, List.count_append, List.count_replicate_self]
    omega
  rw [← heq, hcnt] at hge
  omega

/-- Claim C10: the delivered email body embeds at most the first 3000
characters of the summary argument and always appends a literal "..."
after it, and on the success path the delivered body is never byte-equal
to the persisted summary. -/
theorem notifier_truncation_spec :
    (∀ (ds s : Text) (n : Nat),
      (∃ pre, emailBody ds s n = pre ++ s.take 3000 ++ ("...".data))
        ∧ (s.take 3000).length ≤ 3000
        ∧ ∃ rest, s = s.take 3000 ++ rest)
  ∧ (∀ (store : List Article) (now : Int) (gen : Prompt → Except Text Text)
        (persistErr : Option Text) (coll : List Report) (r : RunResult) (rep : Report),
      run_summary store none now gen persistErr coll = Except.ok r →
      r.persisted = some rep →
      ∀ b ∈ r.notifications, b ≠ rep.summary) := by
  constructor
  · intro ds s n
    refine ⟨⟨("Summary for ".data) ++ ds ++ ("\n\nArticles processed: ".data)
        ++ natStr n ++ ("\n\nSummary:\n".data), ?_⟩, ?_,
      ⟨s.drop 3000, (List.take_append_drop 3000 s).symm⟩⟩
    · rw [emailBody]
    · rw [List.length_take]
      omega
  · intro store now gen persistErr coll r rep hrun hper b hb
    by_cases hload : load_daily_articles store now = []
    · rw [run_empty store now gen persistErr coll hload] at hrun
      cases hrun
      simp at hper
    · cases hgen : gen (build_prompt (load_daily_articles store now)) with
      | error e =>
        rw [run_genError store now gen persistErr coll e hload hgen] at hrun
        cases hrun
        simp at hper
      | ok raw =>
        cases persistErr with
        | some pe =>
          rw [run_persistErr store now gen coll raw pe hload hgen] at hrun
          cases hrun
          simp at hper
        | none =>
          rw [run_success store now gen coll raw hload hgen] at hrun
          cases hrun
          simp only [Option.some.injEq] at hper
          subst hper
          simp only [List.mem_singleton] at hb
          subst hb
          exact emailBody_ne_metaFooter _ _ _ _

/-- Claim C10: sample instantiations — the structural part at a small
input, and the body/persisted-summary disagreement on a concrete
successful run. -/
theorem notifier_truncation_spec_w :
    (∃ pre, emailBody ([] : Text) ([] : Text) 0 = pre ++ (([] : Text).take 3000) ++ ("...".data))
  ∧ emailBody (intStr (midnightUTC 0))
        (clean_summary (pyStrip [])
          ++ metaFooter (midnightUTC 0) (load_daily_articles store3 0).length)
        (load_daily_articles store3 0).length
      ≠ clean_summary (pyStrip [])
          ++ metaFooter (midnightUTC 0) (load_daily_articles store3 0).length := by
  constructor
  · exact (notifier_truncation_spec.1 [] [] 0).1
  · exact notifier_truncation_spec.2 store3 0 (fun _ => Except.ok []) none [] _ _
      (run_success store3 0 (fun _ => Except.ok []) [] [] (by decide) rfl) rfl _
      (List.mem_singleton.mpr rfl)
